import Mathlib

set_option linter.unusedVariables false

/-!
Shallow embedding of the oxwm status-bar core (`src/bar/bar.rs`, `src/bar/font.rs`,
`src/tab_bar.rs`).

Pure layout and state logic is translated directly from the source.  External
X11 side effects (fill-rectangle, glyph drawing, blit-to-window) are recorded
as data (`RectFill`, `TextRun`, `DrawOut`) instead of being performed, and the
fallible X calls of `TabBar::reposition` are given explicit boolean outcomes.
Machine integers are modelled as `Nat` (u16/u32) and `Int` (i16/i32); overflow
panics of debug Rust arithmetic are outside the model and noted where relevant.
`Instant` is a `Nat` tick and `Duration` comparison becomes `Nat` comparison
(`Instant::duration_since` saturates, matching truncated `Nat` subtraction).
Strings are `List Char`, with `Char.utf8Size` giving Rust's UTF-8 byte widths;
the text engine (`Font`) is an abstract measuring function, as in the source it
is an opaque Xft capability.  Rust `Result` becomes `Except`; the two panics
reachable in the title-truncation loop of `Bar::draw` (byte slicing off a char
boundary, and `usize` underflow of `end_of_title`) are modelled as
`Except.error ()`.
-/

/-- `ColorScheme` from the configuration: three packed 24-bit RGB values. -/
structure ColorScheme where
  foreground : Nat
  background : Nat
  underline : Nat
deriving DecidableEq, Repr

/-- One status block (`Box<dyn Block>`), snapshotted for a single host call:
its update interval, the result its fallible `content()` fetch produces during
this call (`none` = `Err`), and its display color.  The source may call
`content()` several times per pass; the model treats the result as stable
within one call, matching the deterministic blocks of the repository. -/
structure Block where
  interval : Nat
  content : Option (List Char)
  color : Nat
deriving DecidableEq, Repr

/-- A configured block: the built `Block` (`block_config.to_block()`) together
with its static `underline` flag (`block_config.underline`). -/
structure BlockConfig where
  block : Block
  underline : Bool
deriving DecidableEq, Repr

/-- The part of `Config` the Bar reads. -/
structure Config where
  tags : List (List Char)
  status_blocks : List BlockConfig
  scheme_normal : ColorScheme
  scheme_occupied : ColorScheme
  scheme_selected : ColorScheme
  scheme_urgent : ColorScheme
  hide_vacant_tags : Bool

/-- The text capability (`bar/font.rs`): an abstract UTF-8 measuring function
(`XftTextExtentsUtf8` width, a u16), plus the font's height (u16) and
ascent (i16). -/
structure Font where
  text_width : List Char → Nat
  height : Nat
  ascent : Int

/-- A positioned colored text run (`BarObject` in the source, minus the `font`
reference, which is the same for every run of a draw pass). -/
structure TextRun where
  color : Nat
  x : Int
  y : Int
  text : List Char
deriving DecidableEq, Repr

/-- A fill-rectangle side effect (`draw_elements` with `window: None`,
i.e. `XFillRectangle` on the offscreen pixmap). -/
structure RectFill where
  color : Nat
  x : Int
  y : Int
  w : Nat
  h : Nat
deriving DecidableEq, Repr

/-- The pixel work one `Bar::draw` call performs on its surface: fill
rectangles (clear + underlines), the batched text runs, and how many
pixmap-to-window blits happened. -/
structure DrawOut where
  rects : List RectFill
  texts : List TextRun
  blits : Nat
deriving DecidableEq, Repr

/-- The draw output of a pass that does no pixel work at all. -/
def emptyDrawOut : DrawOut := ⟨[], [], 0⟩

/-- Rust's `as i16` cast of a u16 value. -/
def i16ofU16 (n : Nat) : Int :=
  if n < 32768 then (n : Int) else (n : Int) - 65536

/-- The `Bar` state (`bar/bar.rs`), omitting the opaque X handles
(`window`, `graphics_context`, `surface`) that carry no layout state. -/
structure Bar where
  width : Nat
  height : Nat
  tag_widths : List Nat
  needs_redraw : Bool
  blocks : List Block
  block_last_updates : List Nat
  block_underlines : List Bool
  status_text : List Char
  tags : List (List Char)
  scheme_normal : ColorScheme
  scheme_occupied : ColorScheme
  scheme_selected : ColorScheme
  scheme_urgent : ColorScheme
  hide_vacant_tags : Bool
  last_occupied_tags : Nat
  last_current_tags : Nat
deriving DecidableEq, Repr

/-- `Bar::new` (the `Ok` path; window/GC/surface creation failures abort
construction before any state exists).  `height` and `horizontal_padding` are
passed in because the source computes them with `f32` arithmetic
(`font.height() as f32 * 1.4` resp. `* 0.4`), which has no exact `Nat` form;
every claim treats them as opaque inputs. -/
def Bar.new (config : Config) (font : Font) (screen_width height horizontal_padding : Nat)
    (now : Nat) : Bar :=
  let blocks := config.status_blocks.map (fun bc => bc.block)
  { width := screen_width
    height := height
    tag_widths := config.tags.map (fun tag => font.text_width tag + horizontal_padding * 2)
    needs_redraw := true
    blocks := blocks
    block_last_updates := List.replicate blocks.length now
    block_underlines := config.status_blocks.map (fun bc => bc.underline)
    status_text := []
    tags := config.tags
    scheme_normal := config.scheme_normal
    scheme_occupied := config.scheme_occupied
    scheme_selected := config.scheme_selected
    scheme_urgent := config.scheme_urgent
    hide_vacant_tags := config.hide_vacant_tags
    last_occupied_tags := 0
    last_current_tags := 0 }

/-- `Bar::invalidate`. -/
def Bar.invalidate (b : Bar) : Bar := { b with needs_redraw := true }

/-- One block's update condition in `Bar::update_blocks`:
`elapsed >= block.interval() && block.content().is_ok()`. -/
def blockCrossed (now last : Nat) (block : Block) : Bool :=
  decide (block.interval ≤ now - last) && block.content.isSome

/-- The first loop of `Bar::update_blocks`: walks the blocks against their
last-update stamps, stamping `now` on every block that crossed its interval
and fetched successfully; returns the new stamp vector and the `changed`
flag.  (The `(_ :: _, [])` case is the out-of-bounds read
`self.block_last_updates[i]`, which panics in Rust; it is unreachable under
the length invariant of claim C10.) -/
def updateStamps (now : Nat) : List Block → List Nat → List Nat × Bool
  | [], rest => (rest, false)
  | _ :: _, [] => ([], false)
  | block :: blocks, last :: lasts =>
    let r := updateStamps now blocks lasts
    if blockCrossed now last block then (now :: r.1, true) else (last :: r.1, r.2)

/-- `Bar::update_blocks`. -/
def Bar.update_blocks (b : Bar) (now : Nat) : Bar :=
  let r := updateStamps now b.blocks b.block_last_updates
  if r.2 then
    { b with
        block_last_updates := r.1
        status_text := (b.blocks.filterMap (fun block => block.content)).flatten
        needs_redraw := true }
  else
    { b with block_last_updates := r.1 }

/-- `Bar::update_from_config`.  Note the source replaces `tags` but never
recomputes `tag_widths`; the model mirrors that. -/
def Bar.update_from_config (b : Bar) (config : Config) (now : Nat) : Bar :=
  let blocks := config.status_blocks.map (fun bc => bc.block)
  { b with
      blocks := blocks
      block_underlines := config.status_blocks.map (fun bc => bc.underline)
      block_last_updates := List.replicate blocks.length now
      tags := config.tags
      scheme_normal := config.scheme_normal
      scheme_occupied := config.scheme_occupied
      scheme_selected := config.scheme_selected
      scheme_urgent := config.scheme_urgent
      hide_vacant_tags := config.hide_vacant_tags
      status_text := []
      needs_redraw := true }

/-- Scheme priority of the tag walk:
`selected > urgent > occupied > normal` (bar.rs lines 253-261). -/
def schemeFor (schN schO schS schU : ColorScheme) (sel urg occ : Bool) : ColorScheme :=
  if sel then schS else if urg then schU else if occ then schO else schN

/-- The visibility-filtered left-to-right tag walk shared by `Bar::draw` and
`Bar::handle_click`: from an enumerated `(index, width)` list and a cursor it
yields the `(index, x, width)` span of every visible tag, skipping (without
advancing the cursor) each tag that is hidden because `hide_vacant_tags` is on
and the tag is neither occupied nor selected. -/
def spanList (hide : Bool) (cur occ : Nat) : List (Nat × Nat) → Int → List (Nat × Int × Nat)
  | [], _ => []
  | (i, w) :: rest, x =>
    if hide && !(occ.testBit i) && !(cur.testBit i) then
      spanList hide cur occ rest x
    else
      (i, x, w) :: spanList hide cur occ rest (x + (w : Int))

/-- The cursor position at the end of the tag walk (same skip rule as
`spanList`). -/
def spanListEnd (hide : Bool) (cur occ : Nat) : List (Nat × Nat) → Int → Int
  | [], x => x
  | (i, w) :: rest, x =>
    if hide && !(occ.testBit i) && !(cur.testBit i) then
      spanListEnd hide cur occ rest x
    else
      spanListEnd hide cur occ rest (x + (w : Int))

/-- The `(tag_index, tag_width)` pairs `Bar::draw` walks: it enumerates
`self.tags` and reads `self.tag_widths[tag_index]`. -/
def Bar.tagPairs (b : Bar) : List (Nat × Nat) :=
  b.tags.enum.map (fun p => (p.1, b.tag_widths.getD p.1 0))

/-- The cursor position reached at the end of the tag walk of `Bar::draw`
(bar.rs line 299, before the `x_position += 10` of line 301). -/
def Bar.layoutX (b : Bar) (cur occ : Nat) : Int :=
  spanListEnd b.hide_vacant_tags cur occ b.tagPairs 0

/-- The tag text runs of `Bar::draw` (lines 241-299): each visible tag's label,
centered in its precomputed width, colored by the priority scheme.  The
centering offset `(tag_width - text_width) / 2` is u16 arithmetic; its debug
underflow panic (label wider than its precomputed width) is outside the model
(`Nat` subtraction truncates). -/
def Bar.tagObjs (b : Bar) (font : Font) (cur occ urg : Nat) : List TextRun :=
  (spanList b.hide_vacant_tags cur occ b.tagPairs 0).map (fun s =>
    let tag := b.tags.getD s.1 []
    let scheme := schemeFor b.scheme_normal b.scheme_occupied b.scheme_selected b.scheme_urgent
      (cur.testBit s.1) (urg.testBit s.1) (occ.testBit s.1)
    ⟨scheme.foreground, s.2.1 + (((s.2.2 - font.text_width tag) / 2 : Nat) : Int),
      4 + font.ascent, tag⟩)

/-- The underline rectangles of the tag walk (lines 276-296): one under each
selected-or-urgent visible tag, in the chosen scheme's underline color. -/
def Bar.tagRects (b : Bar) (font : Font) (cur occ urg : Nat) : List RectFill :=
  (spanList b.hide_vacant_tags cur occ b.tagPairs 0).filterMap (fun s =>
    if cur.testBit s.1 || urg.testBit s.1 then
      let scheme := schemeFor b.scheme_normal b.scheme_occupied b.scheme_selected b.scheme_urgent
        (cur.testBit s.1) (urg.testBit s.1) (occ.testBit s.1)
      let underline_height := font.height / 8
      some ⟨scheme.underline, s.2.1 + 2, (b.height : Int) - (underline_height : Int) - 3,
        s.2.2 - 4, underline_height⟩
    else none)

/-- The right-to-left status-block pass of `Bar::draw` (lines 338-376), over
the reversed enumerated block list: every block whose `content()` succeeds
moves the cursor left by its measured width and contributes a text run in its
own color (plus an underline rectangle when configured); failing blocks are
skipped.  Returns the runs, the underline rectangles, and the final cursor
(`end_of_blocks_x`). -/
def blockWalk (font : Font) (underlines : List Bool) (barHeight : Nat) :
    List (Nat × Block) → Int → List TextRun × List RectFill × Int
  | [], x => ([], [], x)
  | (i, block) :: rest, x =>
    match block.content with
    | none => blockWalk font underlines barHeight rest x
    | some text =>
      let text_width := font.text_width text
      let xNew := x - (text_width : Int)
      let obj : TextRun := ⟨block.color, xNew, 4 + font.ascent, text⟩
      let urects : List RectFill :=
        if underlines.getD i false then
          let underline_height := font.height / 8
          [⟨block.color, xNew - 4, (barHeight : Int) - (underline_height : Int) - 3,
            text_width + 8, underline_height⟩]
        else []
      let r := blockWalk font underlines barHeight rest xNew
      (obj :: r.1, urects ++ r.2.1, r.2.2)

/-- The guard and entry point of the block pass (lines 332-378): blocks are
laid out only when `draw_blocks` is set and the cached status text is
non-empty, starting at `width - 10`; otherwise `end_of_blocks_x` stays at
the bar width. -/
def Bar.blocksPass (b : Bar) (font : Font) (draw_blocks : Bool) :
    List TextRun × List RectFill × Int :=
  if draw_blocks && !b.status_text.isEmpty then
    blockWalk font b.block_underlines b.height b.blocks.enum.reverse ((b.width : Int) - 10)
  else
    ([], [], (b.width : Int))

/-- Rust byte slicing `&title[..n]` on a UTF-8 string held as a `List Char`:
`some prefix` when `n` bytes is a character boundary, `none` when the slice
panics (index inside a character, or past the end). -/
def byteSlice : List Char → Nat → Option (List Char)
  | _, 0 => some []
  | [], _ + 1 => none
  | c :: rest, n + 1 =>
    if c.utf8Size ≤ n + 1 then (byteSlice rest (n + 1 - c.utf8Size)).map (fun p => c :: p)
    else none

/-- `title.len()`: the UTF-8 byte length. -/
def utf8Len (s : List Char) : Nat := (s.map Char.utf8Size).sum

/-- The title-truncation loop of `Bar::draw` (lines 393-396):
`while title_start + title_width > end_of_blocks_x { end_of_title -= 1;
title_width = font.text_width(&title[..end_of_title]) as i16; }`.
The `Nat` argument is `end_of_title`; `pre` is the slice it currently denotes
and `w` the current `title_width`.  `Except.error ()` is a Rust panic: either
the `usize` underflow of `end_of_title -= 1` at zero, or byte slicing off a
character boundary. -/
def truncLoop (font : Font) (title : List Char) (title_start end_of_blocks_x : Int) :
    Nat → List Char → Int → Except Unit (List Char × Nat)
  | 0, pre, w =>
    if title_start + w > end_of_blocks_x then .error () else .ok (pre, 0)
  | e + 1, pre, w =>
    if title_start + w > end_of_blocks_x then
      match byteSlice title e with
      | none => .error ()
      | some p => truncLoop font title title_start end_of_blocks_x e p (i16ofU16 (font.text_width p))
    else .ok (pre, e + 1)

/-- The focused-title pass of `Bar::draw` (lines 380-405): compute the
centered-or-justified `title_start`, run the truncation loop, and emit the
(possibly truncated) title run in the selected scheme's foreground. -/
def drawTitle (font : Font) (x_position end_of_blocks_x text_y : Int) (fg : Nat)
    (title : List Char) : Except Unit TextRun :=
  let end_of_layout_x := x_position + 10
  let middle_remaining := Int.tdiv (end_of_blocks_x - end_of_layout_x) 2
  let title_width := i16ofU16 (font.text_width title)
  let title_start :=
    if middle_remaining - Int.tdiv title_width 2 < end_of_layout_x then end_of_layout_x + 10
    else middle_remaining - Int.tdiv title_width 2
  match truncLoop font title title_start end_of_blocks_x (utf8Len title) title title_width with
  | .error e => .error e
  | .ok r => .ok ⟨fg, title_start, text_y, r.1⟩

/-- The full layout computation of a dirty `Bar::draw` pass: the batched
`bar_objects` in push order — visible tags, layout symbol at
`layoutX + 10`, optional keychord indicator 10 further right (the source does
not advance the cursor past the indicator's own width), the right-to-left
block runs, and finally the focused title.  An error is the truncation-loop
panic. -/
def Bar.drawTexts (b : Bar) (font : Font) (cur occ urg : Nat) (draw_blocks : Bool)
    (layout_symbol : List Char) (keychord_indicator : Option (List Char))
    (focused_title : Option (List Char)) : Except Unit (List TextRun) :=
  let text_y : Int := 4 + font.ascent
  let tObjs := b.tagObjs font cur occ urg
  let x1 := b.layoutX cur occ + 10
  let symObj : TextRun := ⟨b.scheme_normal.foreground, x1, text_y, layout_symbol⟩
  let x2 := x1 + (font.text_width layout_symbol : Int)
  let kp : List TextRun × Int :=
    match keychord_indicator with
    | none => ([], x2)
    | some indicator => ([⟨b.scheme_normal.foreground, x2 + 10, text_y, indicator⟩], x2 + 10)
  let bp := b.blocksPass font draw_blocks
  match focused_title with
  | none => .ok (tObjs ++ symObj :: (kp.1 ++ bp.1))
  | some title =>
    match drawTitle font kp.2 bp.2.2 text_y b.scheme_selected.foreground title with
    | .error e => .error e
    | .ok r => .ok (tObjs ++ symObj :: (kp.1 ++ bp.1 ++ [r]))

/-- The fill-rectangle work of a dirty `Bar::draw` pass: the full-surface
clear in the normal background, then tag underlines, then block underlines. -/
def Bar.drawRects (b : Bar) (font : Font) (cur occ urg : Nat) (draw_blocks : Bool) :
    List RectFill :=
  ⟨b.scheme_normal.background, 0, 0, b.width, b.height⟩ ::
    (b.tagRects font cur occ urg ++ (b.blocksPass font draw_blocks).2.1)

/-- `Bar::draw`.  A clean bar returns `Ok` immediately with no pixel work and
no state change.  A dirty pass caches the supplied bitmasks, performs the
layout, draws everything onto the offscreen surface, blits once, and clears
the dirty flag.  `Except.error ()` is the truncation-loop panic. -/
def Bar.draw (b : Bar) (font : Font) (current_tags occupied_tags urgent_tags : Nat)
    (draw_blocks : Bool) (layout_symbol : List Char) (keychord_indicator : Option (List Char))
    (focused_title : Option (List Char)) : Except Unit (Bar × DrawOut) :=
  if b.needs_redraw = false then .ok (b, emptyDrawOut)
  else
    match b.drawTexts font current_tags occupied_tags urgent_tags draw_blocks layout_symbol
        keychord_indicator focused_title with
    | .error e => .error e
    | .ok ts =>
      .ok ({ b with
              last_occupied_tags := occupied_tags
              last_current_tags := current_tags
              needs_redraw := false },
        ⟨b.drawRects font current_tags occupied_tags urgent_tags draw_blocks, ts, 1⟩)

/-- The hit-test walk of `Bar::handle_click` (lines 433-451): the same
visibility filter and cursor advance as the draw walk, returning the index of
the visible tag whose span contains the click. -/
def clickWalk (hide : Bool) (cur occ : Nat) (click_x : Int) :
    List (Nat × Nat) → Int → Option Nat
  | [], _ => none
  | (i, w) :: rest, x =>
    if hide && !(occ.testBit i) && !(cur.testBit i) then
      clickWalk hide cur occ click_x rest x
    else if click_x ≥ x ∧ click_x < x + (w : Int) then some i
    else clickWalk hide cur occ click_x rest (x + (w : Int))

/-- `Bar::handle_click`: walks `tag_widths` against the bitmasks cached by the
last completed draw. -/
def Bar.handle_click (b : Bar) (click_x : Int) : Option Nat :=
  clickWalk b.hide_vacant_tags b.last_current_tags b.last_occupied_tags click_x
    b.tag_widths.enum 0

/-- The length invariant of the three parallel block vectors (claim C10). -/
def Bar.blocksWF (b : Bar) : Prop :=
  b.block_last_updates.length = b.blocks.length ∧
    b.block_underlines.length = b.blocks.length

/-- `TabBar` (`tab_bar.rs`), omitting the opaque X handles; `surface_width`
records the width the current `DrawingSurface` was created with. -/
structure TabBar where
  width : Nat
  height : Nat
  x_offset : Int
  y_offset : Int
  surface_width : Nat
  scheme_normal : ColorScheme
  scheme_selected : ColorScheme
deriving DecidableEq, Repr

/-- `TabBar::get_clicked_window` (lines 209-218): `tab_width = width / len`,
`tab_index = (click_x as u16 / tab_width) as usize`, then a checked lookup.
The `as u16` cast of the i16 click wraps modulo 2^16.  (When
`len > width`, `tab_width = 0` and the Rust division panics; every theorem
below assumes `len ≤ width`, as the claim does.) -/
def TabBar.get_clicked_window (tb : TabBar) (windows : List (Nat × List Char))
    (click_x : Int) : Option Nat :=
  if windows.isEmpty then none
  else
    let tab_width := tb.width / windows.length
    let tab_index := (click_x % 65536).toNat / tab_width
    (windows.get? tab_index).map (fun p => p.1)

/-- `TabBar::reposition` (lines 220-252): the offsets and width are written
first, then `configure_window`, `DrawingSurface::new` (at the new width) and
`flush` run in order, each fallible; an early `?` return leaves the already
written fields in place.  The three booleans are the outcomes of the three
fallible X calls.  Returns the call's result together with the state the
`&mut self` ends in. -/
def TabBar.reposition (tb : TabBar) (x y : Int) (width : Nat)
    (configure_ok surface_ok flush_ok : Bool) : Except Unit Unit × TabBar :=
  let tb1 := { tb with x_offset := x, y_offset := y, width := width }
  if configure_ok = false then (.error (), tb1)
  else if surface_ok = false then (.error (), tb1)
  else
    let tb2 := { tb1 with surface_width := width }
    if flush_ok = false then (.error (), tb2) else (.ok (), tb2)

/-! Concrete instances used by counterexamples and witnesses. -/

/-- A normal scheme with distinct channel values. -/
def schN : ColorScheme := ⟨10, 11, 12⟩

/-- An occupied scheme. -/
def schO : ColorScheme := ⟨20, 21, 22⟩

/-- A selected scheme. -/
def schS : ColorScheme := ⟨30, 31, 32⟩

/-- An urgent scheme. -/
def schU : ColorScheme := ⟨40, 41, 42⟩

/-- A font measuring one pixel per character. -/
def cFont : Font := ⟨fun s => s.length, 16, 12⟩

/-- A font measuring ten pixels per character. -/
def wideFont : Font := ⟨fun s => 10 * s.length, 16, 12⟩

/-- A 10-pixel-wide tab bar holding three windows: `10 / 3 = 3`, so the
rightmost pixel column maps to tab index 3, out of range. -/
def tb10 : TabBar := ⟨10, 20, 0, 0, 10, schN, schS⟩

/-- A 12-pixel-wide tab bar: 3 divides 12, so the edge case behaves. -/
def tb12 : TabBar := ⟨12, 20, 0, 0, 12, schN, schS⟩

/-- Three windows with handles 1, 2, 3. -/
def ws3 : List (Nat × List Char) := [(1, ['a']), (2, ['b']), (3, ['c'])]

/-- A 100-pixel tab bar whose surface matches its width. -/
def tbC : TabBar := ⟨100, 20, 0, 0, 100, schN, schS⟩

/-- A clean (not dirty) bar with two tags. -/
def sampleBar : Bar :=
  { width := 100, height := 16, tag_widths := [5, 7], needs_redraw := false
    blocks := [], block_last_updates := [], block_underlines := [], status_text := []
    tags := [['a'], ['b']], scheme_normal := schN, scheme_occupied := schO
    scheme_selected := schS, scheme_urgent := schU, hide_vacant_tags := false
    last_occupied_tags := 0, last_current_tags := 0 }

/-- The same bar, dirty. -/
def sampleDirty : Bar := { sampleBar with needs_redraw := true }

/-- A bar with one block that is due at tick 3 and fetches successfully. -/
def sampleBlockBar : Bar :=
  { sampleBar with
      blocks := [⟨2, some ['a'], 5⟩]
      block_last_updates := [0]
      block_underlines := [false] }

/-- A narrow dirty bar receiving a two-character non-ASCII title: the
truncation loop must shorten the title and panics slicing byte index 3,
inside the second two-byte character. -/
def c1Bar : Bar :=
  { sampleBar with width := 45, tag_widths := [], tags := [], needs_redraw := true }

/-- A dirty bar with two status blocks of text widths 5 and 7 (under `cFont`),
for the block-layout counterexample. -/
def c8Bar : Bar :=
  { sampleBar with
      needs_redraw := true
      tag_widths := [], tags := []
      blocks := [⟨1, some "aaaaa".toList, 111⟩, ⟨1, some "bbbbbbb".toList, 222⟩]
      block_last_updates := [0, 0]
      block_underlines := [false, false]
      status_text := "aaaaabbbbbbb".toList }

/-- A concrete configuration with one tag and one block. -/
def cfg0 : Config :=
  { tags := [['t']]
    status_blocks := [⟨⟨2, some ['a'], 5⟩, true⟩]
    scheme_normal := schN, scheme_occupied := schO
    scheme_selected := schS, scheme_urgent := schU
    hide_vacant_tags := false }

/-- Right-to-left adjacency of a run list: each run's right edge (its x plus
its measured width) sits exactly at `edge`, the previous run's left edge —
i.e. consecutive runs touch with no gap, walking inward from `edge`. -/
def adjacentFrom (font : Font) : Int → List TextRun → Prop
  | _, [] => True
  | edge, o :: rest => o.x + (font.text_width o.text : Int) = edge ∧ adjacentFrom font o.x rest

/-! Theorems. -/

lemma get_clicked_window_nat (tb : TabBar) (ws : List (Nat × List Char)) (hne : ws ≠ [])
    (x : Nat) (hx : x < 65536) :
    tb.get_clicked_window ws (x : Int) =
      (ws.get? (x / (tb.width / ws.length))).map (fun p => p.1) := by
  have hemp : ws.isEmpty = false := by
    cases ws with
    | nil => exact absurd rfl hne
    | cons a t => rfl
  unfold TabBar.get_clicked_window
  rw [hemp]
  have hcast : (((x : Nat) : Int) % 65536).toNat = x := by omega
  simp only [Bool.false_eq_true, if_false, hcast]

/-- Claim C2 (amended): for a non-empty window list of length `N` and width
`W ≥ N`, `get_clicked_window` maps a click `x` to index `x / (W / N)` by
integer division, looked up with an out-of-range check; every `x ≥ W` returns
`none`; and `x = W - 1` resolves to index `N - 1` whenever `N` divides `W`
(the original claim's unconditional `W - 1 ↦ N - 1` fails when `N ∤ W`, see
the counterexample). -/
theorem c2_amended : ∀ (tb : TabBar) (ws : List (Nat × List Char)),
    ws ≠ [] → ws.length ≤ tb.width → tb.width < 65536 →
    (∀ x : Nat, x < 32768 →
      tb.get_clicked_window ws (x : Int) =
        (ws.get? (x / (tb.width / ws.length))).map (fun p => p.1)
      ∧ (tb.width ≤ x → tb.get_clicked_window ws (x : Int) = none))
    ∧ (ws.length ∣ tb.width →
        tb.get_clicked_window ws ((tb.width - 1 : Nat) : Int) =
          (ws.get? (ws.length - 1)).map (fun p => p.1)) := by
  intro tb ws hne hWN hW
  have hN : 0 < ws.length := List.length_pos.2 hne
  refine ⟨fun x hx => ⟨get_clicked_window_nat tb ws hne x (by omega), fun hwx => ?_⟩, fun hdvd => ?_⟩
  · rw [get_clicked_window_nat tb ws hne x (by omega)]
    have hq : 0 < tb.width / ws.length := Nat.div_pos hWN hN
    have hidx : ws.length ≤ x / (tb.width / ws.length) := by
      rw [Nat.le_div_iff_mul_le hq]
      calc ws.length * (tb.width / ws.length)
          = tb.width / ws.length * ws.length := Nat.mul_comm _ _
        _ ≤ tb.width := Nat.div_mul_le_self _ _
        _ ≤ x := hwx
    rw [List.get?_eq_none.2 hidx]
    rfl
  · obtain ⟨k, hk⟩ := hdvd
    have hk0 : 0 < k := by
      rcases Nat.eq_zero_or_pos k with h0 | h0
      · subst h0; simp at hk; omega
      · exact h0
    have hq : tb.width / ws.length = k := by
      rw [hk, Nat.mul_div_cancel_left _ hN]
    have hlt : tb.width - 1 < 65536 := by omega
    rw [get_clicked_window_nat tb ws hne _ hlt, hq]
    have lo : (ws.length - 1) * k ≤ tb.width - 1 := by
      rw [hk, Nat.sub_mul, one_mul]
      exact Nat.sub_le_sub_left hk0 _
    have hi : tb.width - 1 < ((ws.length - 1) + 1) * k := by
      have hpos : 0 < ws.length * k := Nat.mul_pos hN hk0
      have : (ws.length - 1) + 1 = ws.length := by omega
      rw [this, ← hk]
      omega
    rw [Nat.div_eq_of_lt_le lo hi]

/-- Claim C2 witness: with width 12 and three windows, the last pixel column
`x = 11` resolves to the third window and `x = 12` (`= W`) to `none`. -/
theorem c2_amended_witness :
    tb12.get_clicked_window ws3 (11 : Int) = some 3 ∧
      tb12.get_clicked_window ws3 (12 : Int) = none := by
  have h := c2_amended tb12 ws3 (by decide) (by decide) (by decide)
  constructor
  · have h2 := h.2 ⟨4, rfl⟩
    revert h2
    decide
  · have h1 := (h.1 12 (by decide)).2 (by decide)
    revert h1
    decide

/-- Claim C2 counterexample: width 10, three windows.  The claim says clicking
at `x = W - 1 = 9` must resolve to the window at index `N - 1 = 2` (handle 3);
the code computes `tab_width = 10 / 3 = 3` and `tab_index = 9 / 3 = 3`, out of
range, and returns `none`. -/
theorem c2_counterexample :
    tb10.get_clicked_window ws3 (9 : Int) = none ∧
      ws3.get? (ws3.length - 1) = some (3, ['c']) := by decide

/-- Claim C7 counterexample: `reposition` to width 50 with the surface
recreation failing returns an error, yet the stored width has already been
changed from 100 to 50 while the surface keeps width 100 — exactly the
partially applied geometry the claim rules out. -/
theorem c7_counterexample :
    (tbC.reposition 5 6 50 true false true).1 = .error () ∧
    (tbC.reposition 5 6 50 true false true).2.width = 50 ∧
    (tbC.reposition 5 6 50 true false true).2.surface_width = 100 ∧
    tbC.width = 100 ∧ tbC.surface_width = 100 :=
  ⟨rfl, rfl, rfl, rfl, rfl⟩

/-- Claim C7 (amended): on success `reposition` leaves offset, width and
surface width consistently updated; on failure it returns an error but the
offset and width have already been overwritten — if the failure happened at
`configure_window` or at surface recreation the surface keeps its old width
(so the stored width can disagree with the surface), and only a failure of the
final flush leaves geometry and surface consistent. -/
theorem c7_amended : ∀ (tb : TabBar) (x y : Int) (w : Nat) (co so fo : Bool),
    ((tb.reposition x y w co so fo).1 = .ok () →
      (tb.reposition x y w co so fo).2 =
        { tb with x_offset := x, y_offset := y, width := w, surface_width := w })
    ∧ (co = false ∨ so = false →
        (tb.reposition x y w co so fo).1 = .error ()
        ∧ (tb.reposition x y w co so fo).2 =
            { tb with x_offset := x, y_offset := y, width := w })
    ∧ (co = true → so = true → fo = false →
        (tb.reposition x y w co so fo).1 = .error ()
        ∧ (tb.reposition x y w co so fo).2 =
            { tb with x_offset := x, y_offset := y, width := w, surface_width := w }) := by
  intro tb x y w co so fo
  cases co <;> cases so <;> cases fo <;> simp [TabBar.reposition]

/-- Claim C7 witness: a fully successful reposition of `tbC` to width 30
updates offsets, width and surface width together. -/
theorem c7_amended_witness :
    (tbC.reposition 1 2 30 true true true).2 =
      { tbC with x_offset := 1, y_offset := 2, width := 30, surface_width := 30 } :=
  (c7_amended tbC 1 2 30 true true true).1 rfl

lemma updateStamps_of_none (now : Nat) : ∀ (blocks : List Block) (lasts : List Nat),
    (¬ ∃ p ∈ blocks.zip lasts, blockCrossed now p.2 p.1 = true) →
    updateStamps now blocks lasts = (lasts, false) := by
  intro blocks
  induction blocks with
  | nil => intro lasts h; rfl
  | cons block rest ih =>
    intro lasts h
    cases lasts with
    | nil => rfl
    | cons last ls =>
      rw [List.zip_cons_cons] at h
      push_neg at h
      have hhead : blockCrossed now last block = false := by
        have := h (block, last) (List.mem_cons_self _ _)
        simpa using this
      have htail : ¬ ∃ p ∈ rest.zip ls, blockCrossed now p.2 p.1 = true := by
        rintro ⟨p, hp, hc⟩
        exact h p (List.mem_cons_of_mem _ hp) hc
      simp [updateStamps, hhead, ih ls htail]

lemma updateStamps_changed (now : Nat) : ∀ (blocks : List Block) (lasts : List Nat),
    (∃ p ∈ blocks.zip lasts, blockCrossed now p.2 p.1 = true) →
    (updateStamps now blocks lasts).2 = true := by
  intro blocks
  induction blocks with
  | nil =>
    rintro lasts ⟨p, hp, _⟩
    simp at hp
  | cons block rest ih =>
    rintro lasts ⟨p, hp, hc⟩
    cases lasts with
    | nil => simp at hp
    | cons last ls =>
      rw [List.zip_cons_cons, List.mem_cons] at hp
      rcases hp with rfl | hp
      · simp only at hc
        simp [updateStamps, hc]
      · cases hcr : blockCrossed now last block <;>
          simp [updateStamps, hcr, ih ls ⟨p, hp, hc⟩]

/-- Claim C3: `update_blocks` sets the dirty flag exactly when at least one
block both reached its interval (`elapsed ≥ interval`, with `elapsed` the
saturating distance from its recorded stamp to `now`) and fetched its content
successfully on this call; when no block crossed-and-succeeded — in particular
when no block crossed its interval at all — the whole `Bar` state is returned
unchanged (status text, stamps, dirty flag, everything). -/
theorem c3_update_blocks_dirty : ∀ (b : Bar) (now : Nat),
    ((∃ p ∈ b.blocks.zip b.block_last_updates, blockCrossed now p.2 p.1 = true) →
      (b.update_blocks now).needs_redraw = true)
    ∧ ((¬ ∃ p ∈ b.blocks.zip b.block_last_updates, blockCrossed now p.2 p.1 = true) →
      b.update_blocks now = b) := by
  intro b now
  constructor
  · intro hex
    have hc := updateStamps_changed now b.blocks b.block_last_updates hex
    simp [Bar.update_blocks, hc]
  · intro hnone
    have h := updateStamps_of_none now b.blocks b.block_last_updates hnone
    simp [Bar.update_blocks, h]

/-- Claim C3 witness: a bar with a single block whose interval 2 has elapsed
by tick 3 and whose fetch succeeds is marked dirty. -/
theorem c3_witness : (sampleBlockBar.update_blocks 3).needs_redraw = true :=
  (c3_update_blocks_dirty sampleBlockBar 3).1 (by decide)

lemma draw_skip (b : Bar) (font : Font) (cur occ urg : Nat) (db : Bool) (ls : List Char)
    (kc ft : Option (List Char)) (hb : b.needs_redraw = false) :
    b.draw font cur occ urg db ls kc ft = .ok (b, emptyDrawOut) := by
  simp [Bar.draw, hb]

lemma draw_ok_cases {b b' : Bar} {out : DrawOut} {font : Font} {cur occ urg : Nat} {db : Bool}
    {ls : List Char} {kc ft : Option (List Char)}
    (h : b.draw font cur occ urg db ls kc ft = .ok (b', out)) :
    (b.needs_redraw = false ∧ b' = b ∧ out = emptyDrawOut) ∨
    (b.needs_redraw = true ∧ ∃ ts, b.drawTexts font cur occ urg db ls kc ft = .ok ts ∧
      b' = { b with last_occupied_tags := occ
                    last_current_tags := cur
                    needs_redraw := false } ∧
      out = ⟨b.drawRects font cur occ urg db, ts, 1⟩) := by
  unfold Bar.draw at h
  cases hb : b.needs_redraw with
  | false =>
    left
    rw [hb] at h
    simp at h
    exact ⟨rfl, h.1.symm, h.2.symm⟩
  | true =>
    right
    rw [hb] at h
    simp only [Bool.true_eq_false, if_false] at h
    cases hdt : b.drawTexts font cur occ urg db ls kc ft with
    | error e => rw [hdt] at h; simp at h
    | ok ts =>
      rw [hdt] at h
      simp at h
      exact ⟨rfl, ts, rfl, h.1.symm, h.2.symm⟩

/-- Claim C6: a clean bar's `draw` returns success immediately with no pixel
work (no fills, no text runs, no blit) and an unchanged state; and any
successful `draw` leaves the bar clean, so a second `draw` with no intervening
invalidation — whatever arguments it receives — is exactly such a no-op. -/
theorem c6_draw_idempotent_skip : ∀ (b : Bar) (font font2 : Font)
    (cur occ urg cur2 occ2 urg2 : Nat) (db db2 : Bool) (ls ls2 : List Char)
    (kc kc2 ft ft2 : Option (List Char)) (b' : Bar) (out : DrawOut),
    (b.needs_redraw = false → b.draw font cur occ urg db ls kc ft = .ok (b, emptyDrawOut))
    ∧ (b.draw font cur occ urg db ls kc ft = .ok (b', out) →
        b'.needs_redraw = false ∧
        b'.draw font2 cur2 occ2 urg2 db2 ls2 kc2 ft2 = .ok (b', emptyDrawOut)) := by
  intro b font font2 cur occ urg cur2 occ2 urg2 db db2 ls ls2 kc kc2 ft ft2 b' out
  constructor
  · exact draw_skip b font cur occ urg db ls kc ft
  · intro h
    rcases draw_ok_cases h with ⟨hb, rfl, -⟩ | ⟨hb, ts, hts, rfl, -⟩
    · exact ⟨hb, draw_skip _ font2 cur2 occ2 urg2 db2 ls2 kc2 ft2 hb⟩
    · exact ⟨rfl, draw_skip _ font2 cur2 occ2 urg2 db2 ls2 kc2 ft2 rfl⟩

/-- Claim C6 witness: the clean `sampleBar` drawn once is a no-op. -/
theorem c6_witness :
    sampleBar.draw cFont 1 2 3 false [] none none = .ok (sampleBar, emptyDrawOut) :=
  (c6_draw_idempotent_skip sampleBar cFont cFont 1 2 3 1 2 3 false false [] [] none none
    none none sampleBar emptyDrawOut).1 rfl

lemma update_blocks_preserves_cached (b : Bar) (now : Nat) :
    (b.update_blocks now).last_current_tags = b.last_current_tags ∧
      (b.update_blocks now).last_occupied_tags = b.last_occupied_tags := by
  simp only [Bar.update_blocks]
  constructor <;> (split <;> rfl)

/-- Claim C4: `handle_click` reads only the cached `last_current_tags` /
`last_occupied_tags` (plus the static `tag_widths` / `hide_vacant_tags`
layout data) — two bars agreeing on those agree on every hit-test, so no
bitmask supplied after a draw can influence it; those caches are written
exactly by a dirty (actually redrawing) `draw` pass, which stores the
bitmasks that that pass rendered; a clean `draw` leaves the whole bar
(caches included) untouched; and `update_blocks`, `invalidate` and
`update_from_config` never write the caches. -/
theorem c4_click_uses_cached : ∀ (b bAlt : Bar) (cx : Int) (font : Font) (cur occ urg : Nat)
    (db : Bool) (ls : List Char) (kc ft : Option (List Char)) (b' : Bar) (out : DrawOut)
    (now : Nat) (config : Config),
    (b.tag_widths = bAlt.tag_widths → b.hide_vacant_tags = bAlt.hide_vacant_tags →
      b.last_current_tags = bAlt.last_current_tags →
      b.last_occupied_tags = bAlt.last_occupied_tags →
      b.handle_click cx = bAlt.handle_click cx)
    ∧ (b.needs_redraw = true → b.draw font cur occ urg db ls kc ft = .ok (b', out) →
        b'.last_current_tags = cur ∧ b'.last_occupied_tags = occ)
    ∧ (b.needs_redraw = false → b.draw font cur occ urg db ls kc ft = .ok (b, emptyDrawOut))
    ∧ ((b.update_blocks now).last_current_tags = b.last_current_tags
       ∧ (b.update_blocks now).last_occupied_tags = b.last_occupied_tags
       ∧ b.invalidate.last_current_tags = b.last_current_tags
       ∧ b.invalidate.last_occupied_tags = b.last_occupied_tags
       ∧ (b.update_from_config config now).last_current_tags = b.last_current_tags
       ∧ (b.update_from_config config now).last_occupied_tags = b.last_occupied_tags) := by
  intro b bAlt cx font cur occ urg db ls kc ft b' out now config
  refine ⟨fun h1 h2 h3 h4 => ?_, fun hb h => ?_, draw_skip b font cur occ urg db ls kc ft,
    (update_blocks_preserves_cached b now).1, (update_blocks_preserves_cached b now).2,
    rfl, rfl, rfl, rfl⟩
  · unfold Bar.handle_click
    rw [h1, h2, h3, h4]
  · rcases draw_ok_cases h with ⟨hb', -, -⟩ | ⟨-, ts, -, rfl, -⟩
    · rw [hb] at hb'; exact absurd hb' (by simp)
    · exact ⟨rfl, rfl⟩

/-- Claim C4 witness: the clean and dirty sample bars share the cached fields,
so they hit-test identically; and a clean draw with fresh bitmasks is a no-op
that leaves the caches alone. -/
theorem c4_witness :
    sampleBar.handle_click 3 = sampleDirty.handle_click 3 ∧
      sampleBar.draw cFont 7 8 9 true ['x'] none none = .ok (sampleBar, emptyDrawOut) := by
  have h := c4_click_uses_cached sampleBar sampleDirty 3 cFont 7 8 9 true ['x'] none none
    sampleBar emptyDrawOut 0 cfg0
  exact ⟨h.1 rfl rfl rfl rfl, h.2.2.1 rfl⟩

lemma updateStamps_length (now : Nat) : ∀ (blocks : List Block) (lasts : List Nat),
    (updateStamps now blocks lasts).1.length = lasts.length := by
  intro blocks
  induction blocks with
  | nil => intro lasts; rfl
  | cons block rest ih =>
    intro lasts
    cases lasts with
    | nil => rfl
    | cons last ls =>
      simp only [updateStamps]
      split <;> simp [ih ls]

/-- Claim C10: the three parallel vectors `blocks`, `block_last_updates` and
`block_underlines` have equal length in every reachable state: `Bar::new` and
`Bar::update_from_config` establish the invariant (each builds all three from
`config.status_blocks`), `update_blocks` preserves it (the stamp walk is
length-preserving and the other two vectors are untouched), and under it every
block index used by `update_blocks` and `draw` is in bounds for
`block_last_updates[i]` and `block_underlines[i]`. -/
theorem c10_block_vectors_aligned : ∀ (config : Config) (font : Font)
    (w h hp now : Nat) (b : Bar) (now2 : Nat),
    (Bar.new config font w h hp now).blocksWF
    ∧ (b.update_from_config config now2).blocksWF
    ∧ (b.blocksWF → (b.update_blocks now2).blocksWF)
    ∧ (b.blocksWF → ∀ i, i < b.blocks.length →
        i < b.block_last_updates.length ∧ i < b.block_underlines.length) := by
  intro config font w h hp now b now2
  refine ⟨⟨?_, ?_⟩, ⟨?_, ?_⟩, fun hwf => ?_, fun hwf i hi => ?_⟩
  · simp [Bar.new]
  · simp [Bar.new]
  · simp [Bar.update_from_config]
  · simp [Bar.update_from_config]
  · have hl := updateStamps_length now2 b.blocks b.block_last_updates
    unfold Bar.blocksWF at hwf ⊢
    simp only [Bar.update_blocks]
    constructor <;> (split <;> simp [hl, hwf.1, hwf.2])
  · unfold Bar.blocksWF at hwf
    omega

/-- Claim C10 witness: the invariant holds for the sample block bar and is
kept by an `update_blocks` call. -/
theorem c10_witness : (sampleBlockBar.update_blocks 3).blocksWF :=
  (c10_block_vectors_aligned cfg0 cFont 1 1 1 0 sampleBlockBar 3).2.2.1 (by exact ⟨rfl, rfl⟩)

lemma spanList_append_hidden (hide : Bool) (cur occ : Nat) (i w : Nat)
    (hh : hide = true) (hc : cur.testBit i = false) (ho : occ.testBit i = false) :
    ∀ (l₁ l₂ : List (Nat × Nat)) (x0 : Int),
      spanList hide cur occ (l₁ ++ (i, w) :: l₂) x0 = spanList hide cur occ (l₁ ++ l₂) x0 := by
  intro l₁
  induction l₁ with
  | nil =>
    intro l₂ x0
    simp [spanList, hh, hc, ho]
  | cons p rest ih =>
    intro l₂ x0
    obtain ⟨j, v⟩ := p
    simp only [List.cons_append, spanList]
    split
    · exact ih l₂ x0
    · exact congrArg (fun t => (j, x0, v) :: t) (ih l₂ (x0 + (v : Int)))

lemma spanListEnd_append_hidden (hide : Bool) (cur occ : Nat) (i w : Nat)
    (hh : hide = true) (hc : cur.testBit i = false) (ho : occ.testBit i = false) :
    ∀ (l₁ l₂ : List (Nat × Nat)) (x0 : Int),
      spanListEnd hide cur occ (l₁ ++ (i, w) :: l₂) x0 =
        spanListEnd hide cur occ (l₁ ++ l₂) x0 := by
  intro l₁
  induction l₁ with
  | nil =>
    intro l₂ x0
    simp [spanListEnd, hh, hc, ho]
  | cons p rest ih =>
    intro l₂ x0
    obtain ⟨j, v⟩ := p
    simp only [List.cons_append, spanListEnd]
    split
    · exact ih l₂ x0
    · exact ih l₂ (x0 + (v : Int))

lemma clickWalk_eq_find (hide : Bool) (cur occ : Nat) (cx : Int) :
    ∀ (l : List (Nat × Nat)) (x : Int),
      clickWalk hide cur occ cx l x =
        ((spanList hide cur occ l x).find? (fun s =>
          decide (s.2.1 ≤ cx) && decide (cx < s.2.1 + (s.2.2 : Int)))).map (fun s => s.1) := by
  intro l
  induction l with
  | nil => intro x; rfl
  | cons p rest ih =>
    intro x
    obtain ⟨i, w⟩ := p
    simp only [clickWalk, spanList]
    by_cases hvis : (hide && !(occ.testBit i) && !(cur.testBit i)) = true
    · rw [if_pos hvis, if_pos hvis]
      exact ih x
    · rw [if_neg hvis, if_neg hvis]
      by_cases hin : cx ≥ x ∧ cx < x + (w : Int)
      · rw [if_pos hin, List.find?_cons_of_pos _ (by
          simp only [Bool.and_eq_true, decide_eq_true_eq]
          exact ⟨hin.1, hin.2⟩)]
        rfl
      · rw [if_neg hin, List.find?_cons_of_neg _ (by
          simp only [Bool.and_eq_true, decide_eq_true_eq]
          exact fun h => hin ⟨h.1, h.2⟩)]
        exact ih (x + (w : Int))

lemma spanListEnd_false (cur occ : Nat) :
    ∀ (l : List (Nat × Nat)) (x0 : Int),
      spanListEnd false cur occ l x0 = x0 + (l.map (fun p => ((p.2 : Nat) : Int))).sum := by
  intro l
  induction l with
  | nil => intro x0; simp [spanListEnd]
  | cons p rest ih =>
    intro x0
    obtain ⟨i, w⟩ := p
    simp only [spanListEnd, Bool.false_and, Bool.false_eq_true, if_false, List.map_cons,
      List.sum_cons]
    rw [ih]
    ring

lemma tagPairs_eq_enum (b : Bar) (h : b.tags.length = b.tag_widths.length) :
    b.tagPairs = b.tag_widths.enum := by
  apply List.ext
  intro n
  simp only [Bar.tagPairs, List.get?_map]
  unfold List.enum
  rw [List.get?_enumFrom, List.get?_enumFrom]
  by_cases hn : n < b.tags.length
  · have hn' : n < b.tag_widths.length := by omega
    rw [List.get?_eq_get hn, List.get?_eq_get hn']
    simp [List.getD_eq_get?, List.get?_eq_get hn', List.getElem?_eq_getElem hn']
  · have h1 : b.tags.get? n = none := List.get?_eq_none.2 (by omega)
    have h2 : b.tag_widths.get? n = none := List.get?_eq_none.2 (by omega)
    rw [h1, h2]
    rfl

/-- Claim C5: the visibility filter and cursor advance of the tag walk agree
between `draw` and `handle_click`.  (i) A tag that is hidden (hide-vacant on,
neither selected nor occupied in the given bitmasks) is dropped from the span
walk entirely and reserves no space: the walk over a list with it equals the
walk over the list without it, spans and final cursor alike.  (ii)
`handle_click` is exactly a span lookup over `spanList` of the cached
bitmasks, so its reachable ranges are the walk's spans.  (iii) When `tags`
and `tag_widths` are aligned, the `(index, width)` list `draw` walks
(`tagPairs`) is the very list `handle_click` walks (`tag_widths.enum`), so on
equal bitmask inputs both produce identical spans. -/
theorem c5_hidden_vacant_agreement : ∀ (hide : Bool) (cur occ : Nat) (i w : Nat)
    (l₁ l₂ : List (Nat × Nat)) (x0 : Int) (b : Bar) (cx : Int),
    (hide = true → cur.testBit i = false → occ.testBit i = false →
      spanList hide cur occ (l₁ ++ (i, w) :: l₂) x0 = spanList hide cur occ (l₁ ++ l₂) x0
      ∧ spanListEnd hide cur occ (l₁ ++ (i, w) :: l₂) x0 =
          spanListEnd hide cur occ (l₁ ++ l₂) x0)
    ∧ (b.handle_click cx =
        ((spanList b.hide_vacant_tags b.last_current_tags b.last_occupied_tags
            b.tag_widths.enum 0).find? (fun s =>
          decide (s.2.1 ≤ cx) && decide (cx < s.2.1 + (s.2.2 : Int)))).map (fun s => s.1))
    ∧ (b.tags.length = b.tag_widths.length → b.tagPairs = b.tag_widths.enum) := by
  intro hide cur occ i w l₁ l₂ x0 b cx
  refine ⟨fun hh hc ho =>
    ⟨spanList_append_hidden hide cur occ i w hh hc ho l₁ l₂ x0,
      spanListEnd_append_hidden hide cur occ i w hh hc ho l₁ l₂ x0⟩,
    ?_, tagPairs_eq_enum b⟩
  unfold Bar.handle_click
  exact clickWalk_eq_find _ _ _ _ _ 0

/-- Claim C5 witness: with hide-vacant on and empty bitmasks, dropping the
middle tag leaves the spans of a three-tag walk unchanged; and the sample
bar's draw walk list coincides with its hit-test walk list. -/
theorem c5_witness :
    spanList true 0 0 ([(0, 5)] ++ (1, 7) :: [(2, 9)]) 0 =
      spanList true 0 0 ([(0, 5)] ++ [(2, 9)]) 0
    ∧ sampleBar.tagPairs = sampleBar.tag_widths.enum := by
  have h := c5_hidden_vacant_agreement true 0 0 1 7 [(0, 5)] [(2, 9)] 0 sampleBar 0
  exact ⟨(h.1 rfl (by decide) (by decide)).1, h.2.2 rfl⟩

/-- Claim C9: with hide-vacant disabled and `tags` aligned with `tag_widths`,
the cursor at the end of the tag walk of `Bar::draw` (`layoutX`, the
`x_position` of bar.rs line 299) equals the sum of all precomputed tag widths;
consequently the layout-symbol run in the batch `draw` emits sits at index
"number of visible tags" with `x = sum + 10`. -/
theorem c9_tag_walk_sum : ∀ (b : Bar) (font : Font) (cur occ urg : Nat) (db : Bool)
    (ls : List Char) (kc ft : Option (List Char)) (ts : List TextRun),
    b.hide_vacant_tags = false → b.tags.length = b.tag_widths.length →
    (b.layoutX cur occ = (b.tag_widths.sum : Int))
    ∧ (b.drawTexts font cur occ urg db ls kc ft = .ok ts →
        ts.get? (b.tagObjs font cur occ urg).length =
          some ⟨b.scheme_normal.foreground, (b.tag_widths.sum : Int) + 10,
            4 + font.ascent, ls⟩) := by
  intro b font cur occ urg db ls kc ft ts hhide hlen
  have hx : b.layoutX cur occ = (b.tag_widths.sum : Int) := by
    unfold Bar.layoutX
    rw [hhide, spanListEnd_false, tagPairs_eq_enum b hlen, zero_add]
    have hmaps : b.tag_widths.enum.map (fun p => ((p.2 : Nat) : Int)) =
        b.tag_widths.map (fun n : Nat => (n : Int)) := by
      rw [show (fun p : Nat × Nat => ((p.2 : Nat) : Int)) =
        (fun n : Nat => (n : Int)) ∘ Prod.snd from rfl]
      rw [← List.map_map, List.enum_map_snd]
    rw [hmaps]
    exact (Nat.cast_list_sum _).symm
  refine ⟨hx, fun hdt => ?_⟩
  simp only [Bar.drawTexts] at hdt
  split at hdt
  · simp only [Except.ok.injEq] at hdt
    rw [← hdt, List.get?_append_right (le_refl _)]
    simp [hx]
  · split at hdt
    · simp at hdt
    · simp only [Except.ok.injEq] at hdt
      rw [← hdt, List.get?_append_right (le_refl _)]
      simp [hx]

/-- Claim C9 witness: the sample bar (hide-vacant off, widths `[5, 7]`) ends
its tag walk at `x = 12`. -/
theorem c9_witness : sampleBar.layoutX 1 2 = (12 : Int) := by
  have h := (c9_tag_walk_sum sampleBar cFont 1 2 0 false [] none none [] rfl rfl).1
  simpa [sampleBar] using h

lemma widthSum_nonneg (font : Font) (ts : List (List Char)) :
    0 ≤ (ts.map (fun t => (font.text_width t : Int))).sum := by
  apply List.sum_nonneg
  intro x hx
  simp only [List.mem_map] at hx
  obtain ⟨t, -, rfl⟩ := hx
  exact Int.natCast_nonneg _

lemma blockWalk_final (font : Font) (underlines : List Bool) (bh : Nat) :
    ∀ (l : List (Nat × Block)) (x0 : Int),
      (blockWalk font underlines bh l x0).2.2 =
        x0 - ((l.filterMap (fun p => p.2.content)).map
          (fun t => (font.text_width t : Int))).sum := by
  intro l
  induction l with
  | nil => intro x0; simp [blockWalk]
  | cons p rest ih =>
    intro x0
    obtain ⟨i, blk⟩ := p
    cases hc : blk.content with
    | none => simp [blockWalk, hc, ih]
    | some t =>
      simp only [blockWalk, hc, List.filterMap_cons, List.map_cons, List.sum_cons]
      rw [ih]
      ring

lemma blockWalk_content (font : Font) (underlines : List Bool) (bh : Nat) :
    ∀ (l : List (Nat × Block)) (x0 : Int),
      (blockWalk font underlines bh l x0).1.map (fun o => (o.color, o.text)) =
        l.filterMap (fun p => p.2.content.map (fun t => (p.2.color, t))) := by
  intro l
  induction l with
  | nil => intro x0; simp [blockWalk]
  | cons p rest ih =>
    intro x0
    obtain ⟨i, blk⟩ := p
    cases hc : blk.content with
    | none => simp [blockWalk, hc, ih]
    | some t => simp [blockWalk, hc, ih]

lemma blockWalk_adjacent (font : Font) (underlines : List Bool) (bh : Nat) :
    ∀ (l : List (Nat × Block)) (x0 : Int),
      adjacentFrom font x0 (blockWalk font underlines bh l x0).1 := by
  intro l
  induction l with
  | nil => intro x0; trivial
  | cons p rest ih =>
    intro x0
    obtain ⟨i, blk⟩ := p
    cases hc : blk.content with
    | none => simpa [blockWalk, hc] using ih x0
    | some t =>
      simp only [blockWalk, hc]
      exact ⟨by ring, ih (x0 - (font.text_width t : Int))⟩

lemma blockWalk_leftmost (font : Font) (underlines : List Bool) (bh : Nat) :
    ∀ (l : List (Nat × Block)) (x0 : Int),
      ∀ o ∈ (blockWalk font underlines bh l x0).1,
        (blockWalk font underlines bh l x0).2.2 ≤ o.x := by
  intro l
  induction l with
  | nil => intro x0 o ho; simp [blockWalk] at ho
  | cons p rest ih =>
    intro x0 o ho
    obtain ⟨i, blk⟩ := p
    cases hc : blk.content with
    | none =>
      simp only [blockWalk, hc] at ho ⊢
      exact ih x0 o ho
    | some t =>
      simp only [blockWalk, hc] at ho ⊢
      rcases List.mem_cons.1 ho with rfl | ho'
      · rw [blockWalk_final]
        have hnn := widthSum_nonneg font (rest.filterMap (fun p => p.2.content))
        simp only []
        omega
      · exact ih _ o ho'

/-- Claim C8 (amended): in the block pass the runs are laid out right-to-left
from the starting edge inward (in `Bar::draw` that edge is `width - 10`: a
single fixed margin before the rightmost block) with consecutive drawn blocks
*adjacent* — no per-block margin; the runs are the successful blocks in
reverse configured order, each colored by its own block's color; the final
cursor is the start edge minus the total drawn width, is a lower bound for
every run's x, and is recorded as `end_of_blocks_x`, the right boundary handed
to the title pass. -/
theorem c8_blocks_layout : ∀ (font : Font) (underlines : List Bool) (bh : Nat)
    (l : List (Nat × Block)) (x0 : Int),
    adjacentFrom font x0 (blockWalk font underlines bh l x0).1
    ∧ (blockWalk font underlines bh l x0).1.map (fun o => (o.color, o.text)) =
        l.filterMap (fun p => p.2.content.map (fun t => (p.2.color, t)))
    ∧ (blockWalk font underlines bh l x0).2.2 =
        x0 - ((l.filterMap (fun p => p.2.content)).map
          (fun t => (font.text_width t : Int))).sum
    ∧ ∀ o ∈ (blockWalk font underlines bh l x0).1,
        (blockWalk font underlines bh l x0).2.2 ≤ o.x :=
  fun font underlines bh l x0 =>
    ⟨blockWalk_adjacent font underlines bh l x0, blockWalk_content font underlines bh l x0,
      blockWalk_final font underlines bh l x0, blockWalk_leftmost font underlines bh l x0⟩

/-- Claim C8 witness: on `c8Bar`'s two blocks the pass from edge 90 ends at
78, left of the run drawn at x 83. -/
theorem c8_witness :
    (blockWalk cFont c8Bar.block_underlines c8Bar.height c8Bar.blocks.enum.reverse 90).2.2 ≤ 83 :=
  (c8_blocks_layout cFont c8Bar.block_underlines c8Bar.height
    c8Bar.blocks.enum.reverse 90).2.2.2 ⟨222, 83, 16, "bbbbbbb".toList⟩ (by decide)

/-- Claim C8 counterexample: `c8Bar` (width 100, blocks of text widths 5 and
7) draws the rightmost block at `x = 83 = 100 - 10 - 7` and the next block at
`x = 78` — and `78 + 5 = 83`: the second block is *not* preceded by the fixed
10-pixel right margin the claim asserts for "each block" (that would place it
at 68); the only fixed margin is the single one at the strip's right edge. -/
theorem c8_counterexample :
    c8Bar.draw cFont 0 0 0 true [] none none =
      .ok ({ c8Bar with needs_redraw := false },
        ⟨[⟨11, 0, 0, 100, 16⟩],
          [⟨10, 10, 16, []⟩, ⟨222, 83, 16, "bbbbbbb".toList⟩, ⟨111, 78, 16, "aaaaa".toList⟩],
          1⟩)
    ∧ (78 : Int) + (cFont.text_width "aaaaa".toList : Int) = 83 := by
  exact ⟨rfl, by decide⟩

/-- Claim C1 (code bug): the truncation loop of `Bar::draw` panics on a
non-ASCII title.  `c1Bar` (width 45) with the two-character title `"éé"`
(4 UTF-8 bytes, measured width 20 under `wideFont`) must truncate
(`title_start = 30`, `30 + 20 > 45`); the first loop iteration slices
`&title[..3]`, byte index 3 falling inside the second two-byte character, and
Rust panics — the model's `Except.error ()`.  The claim (and the spec's
termination property) say the loop always ends with a fitting prefix or the
empty string; the code instead aborts. -/
theorem c1_truncation_panic :
    c1Bar.draw wideFont 0 0 0 false [] none (some ("éé".toList)) = .error () := by rfl
